import Mathlib

/-!
Verification of the named bit-flag value model of `bitflag-attr`.

The generated flags type wraps a fixed-width unsigned integer.  We embed it
as a `Nat` together with a `FlagSet` descriptor: the declared flag table
(`FLAGS` / `KNOWN_FLAGS` in the generated code), the extra-valid-bits mask and
the bit width of the underlying primitive.  Bitwise NOT on the `w`-bit
primitive is XOR with the all-ones mask `2 ^ w - 1`.

The operations below are direct translations of the generated methods in
`bitflags-attr-macros/src/typed.rs` (value algebra), `src/iter.rs`
(decomposition iterators `IterNames` and `Iter`) and the generated
`from_text` / `from_text_strict` / `to_writer` helpers in `src/lib.rs`.
-/

/-- A flag-set descriptor: the declared `(name, bits)` table in declaration
order, the extra-valid-bits mask, and the width of the bits primitive. -/
structure FlagSet where
  width : Nat
  flags : List (String × Nat)
  extraValidBits : Nat
deriving Repr, DecidableEq

namespace FlagSet

/-- The all-ones value of the `width`-bit primitive (`!0` in Rust). -/
def mask (D : FlagSet) : Nat := 2 ^ D.width - 1

/-- Well-formedness: every declared flag value and the extra-valid-bits mask
fit in the primitive's width (automatic for Rust's fixed-width integers). -/
def WF (D : FlagSet) : Prop :=
  (∀ p ∈ D.flags, p.2 < 2 ^ D.width) ∧ D.extraValidBits < 2 ^ D.width

instance (D : FlagSet) : Decidable D.WF := by
  unfold WF; infer_instance

/-- `empty()`: bits = 0. -/
def empty (_D : FlagSet) : Nat := 0

/-- `is_empty()`: `self.0 == 0`. -/
def is_empty (_D : FlagSet) (v : Nat) : Bool := v == 0

/-- `all_bits()`: `Self(!0)`. -/
def all_bits (D : FlagSet) : Nat := D.mask

/-- `is_all_bits()`: `self.0 == !0`. -/
def is_all_bits (D : FlagSet) (v : Nat) : Bool := v == D.mask

/-- `all()`: OR of every declared flag value, plus the extra valid bits
(`typed.rs` lines 729-741). -/
def all (D : FlagSet) : Nat :=
  (D.flags.foldl (fun acc p => acc ||| p.2) 0) ||| D.extraValidBits

/-- `is_all()`: `Self::all().0 | self.0 == self.0` (`typed.rs` line 746). -/
def is_all (D : FlagSet) (v : Nat) : Bool := D.all ||| v == v

/-- `contains_unknown_bits()`: `Self::all().0 & self.0 != self.0`. -/
def contains_unknown_bits (D : FlagSet) (v : Nat) : Bool := D.all &&& v != v

/-- `truncated()`: `self.0 & Self::all().0`. -/
def truncated (D : FlagSet) (v : Nat) : Nat := v &&& D.all

/-- `intersects(other)`: `(self.0 & other.0) != Self::empty().0`. -/
def intersects (D : FlagSet) (v other : Nat) : Bool := v &&& other != D.empty

/-- `contains(other)`: `(self.0 & other.0) == other.0`. -/
def contains (_D : FlagSet) (v other : Nat) : Bool := v &&& other == other

/-- `not()`: `Self(!self.0)`, bitwise NOT on the `width`-bit primitive,
not truncated. -/
def not (D : FlagSet) (v : Nat) : Nat := D.mask ^^^ v

/-- `and(other)`: `Self(self.0 & other.0)`. -/
def and (_D : FlagSet) (v other : Nat) : Nat := v &&& other

/-- `or(other)`: `Self(self.0 | other.0)`. -/
def or (_D : FlagSet) (v other : Nat) : Nat := v ||| other

/-- `xor(other)`: `Self(self.0 ^ other.0)`. -/
def xor (_D : FlagSet) (v other : Nat) : Nat := v ^^^ other

/-- `intersection(other)`: `self.and(other)`. -/
def intersection (D : FlagSet) (v other : Nat) : Nat := D.and v other

/-- `union(other)`: `self.or(other)`. -/
def union (D : FlagSet) (v other : Nat) : Nat := D.or v other

/-- `difference(other)`: `self.and(other.not())`, not truncated. -/
def difference (D : FlagSet) (v other : Nat) : Nat := D.and v (D.not other)

/-- `symmetric_difference(other)`: `self.xor(other)`. -/
def symmetric_difference (D : FlagSet) (v other : Nat) : Nat := D.xor v other

/-- `complement()`: `self.not().truncated()`. -/
def complement (D : FlagSet) (v : Nat) : Nat := D.truncated (D.not v)

/-- `set(other)`: `self.0 = self.or(other).0`. -/
def set (D : FlagSet) (v other : Nat) : Nat := D.or v other

/-- `unset(other)`: `self.0 = self.difference(other).0`. -/
def unset (D : FlagSet) (v other : Nat) : Nat := D.difference v other

/-- `toggle(other)`: `self.0 = self.xor(other).0`. -/
def toggle (D : FlagSet) (v other : Nat) : Nat := D.xor v other

/-- `from_bits_truncate(bits)`: `Self(bits & Self::all().0)`. -/
def from_bits_truncate (D : FlagSet) (raw : Nat) : Nat := raw &&& D.all

/-- `from_bits(bits)`: `Some(bits)` when truncation is the identity on
`bits`, otherwise `None` (`typed.rs` lines 658-668). -/
def from_bits (D : FlagSet) (raw : Nat) : Option Nat :=
  if D.from_bits_truncate raw == raw then some raw else none

/-- `from_bits_retain(bits)`: `Self(bits)`, unvalidated. -/
def from_bits_retain (_D : FlagSet) (raw : Nat) : Nat := raw

/-- `from_flag_name(name)`: first match against the declared table, in
declaration order; `None` when nothing matches. -/
def from_flag_name (D : FlagSet) (name : List Char) : Option Nat :=
  (D.flags.find? (fun p => p.1.data == name)).map (·.2)

/-- The operator `!` (`impl Not`): `self.complement()`
(`typed.rs` lines 905-913). -/
def opNot (D : FlagSet) (v : Nat) : Nat := D.complement v

/-!  The decomposition iterator (`IterNames::next`, `src/iter.rs` 60-86).
We compute, in one pass, the whole list of yielded `(name, flag)` pairs and
the final `remaining` value. -/

/-- One run of `IterNames` over the table suffix, starting from `rem`:
the yielded pairs and the final `remaining`. -/
def iterNamesGo (D : FlagSet) (source : Nat) :
    List (String × Nat) → Nat → List (String × Nat) × Nat
  | [], rem => ([], rem)
  | (n, f) :: rest, rem =>
    if rem = 0 then ([], rem)
    else if D.contains source f && D.intersects rem f then
      let step := iterNamesGo D source rest (D.unset rem f)
      ((n, f) :: step.1, step.2)
    else
      iterNamesGo D source rest rem

/-- `iter_names()` run to completion: yielded `(name, flag)` pairs and the
final `remaining()` value. -/
def iter_names (D : FlagSet) (v : Nat) : List (String × Nat) × Nat :=
  iterNamesGo D v D.flags v

/-- The outer iterator `Iter` run to completion (`src/iter.rs` 125-146):
every named yield as a bare flags value, then — once — the final
`remaining()` value when it is non-empty. -/
def iter (D : FlagSet) (v : Nat) : List Nat :=
  (D.iter_names v).1.map (·.2) ++
    (if (D.iter_names v).2 = 0 then [] else [(D.iter_names v).2])

end FlagSet

/-!  The text codec.  Strings are embedded as `List Char`.  The parser
(`from_text`, `from_text_strict`, generated in `src/lib.rs` 296-371) splits
the input on `'|'`, trims each segment, and parses it as either a `0x` hex
literal (via `from_str_radix(_, 16)`) or a flag name.  The formatter
(`to_writer`, `src/lib.rs` 764-799) joins the yielded names with `" | "` and
appends the non-empty remainder as a `{:#X}` hex literal. -/

/-- The parse error kind of the generated `ParserError` enum. -/
inductive ParserError
  | EmptyFlag
  | InvalidNamedFlag
  | InvalidHexFlag
deriving Repr, DecidableEq

instance : DecidableEq (Except ParserError Nat) := fun a b =>
  match a, b with
  | .ok x, .ok y =>
      if h : x = y then .isTrue (congrArg Except.ok h)
      else .isFalse (fun hc => h (Except.ok.inj hc))
  | .error x, .error y =>
      if h : x = y then .isTrue (congrArg Except.error h)
      else .isFalse (fun hc => h (Except.error.inj hc))
  | .ok _, .error _ => .isFalse (fun hc => Except.noConfusion hc)
  | .error _, .ok _ => .isFalse (fun hc => Except.noConfusion hc)

/-- ASCII whitespace recognised by `str::trim` (the inputs we reason about
contain no exotic Unicode whitespace). -/
def isWS (c : Char) : Bool := c == ' ' || c == '\t' || c == '\n' || c == '\r'

/-- `str::trim`: drop leading and trailing whitespace. -/
def trim (s : List Char) : List Char :=
  ((s.dropWhile isWS).reverse.dropWhile isWS).reverse

/-- `str::split('|')`: the `'|'`-separated segments, keeping empty ones. -/
def splitPipe : List Char → List (List Char)
  | [] => [[]]
  | c :: rest =>
    if c = '|' then [] :: splitPipe rest
    else
      match splitPipe rest with
      | s :: ss => (c :: s) :: ss
      | [] => [[c]]

/-- The numeric value of a hex digit, as accepted by `char::to_digit(16)`. -/
def hexDigitVal (c : Char) : Option Nat :=
  if '0' ≤ c ∧ c ≤ '9' then some (c.toNat - 48)
  else if 'a' ≤ c ∧ c ≤ 'f' then some (c.toNat - 87)
  else if 'A' ≤ c ∧ c ≤ 'F' then some (c.toNat - 55)
  else none

/-- Digit-accumulation loop of `from_str_radix(_, 16)` on a `w`-bit unsigned
primitive: fails on a non-digit and on overflow past `2 ^ w - 1`. -/
def hexAccGo (w : Nat) : List Char → Nat → Option Nat
  | [], acc => some acc
  | c :: cs, acc =>
    match hexDigitVal c with
    | none => none
    | some d => if 16 * acc + d < 2 ^ w then hexAccGo w cs (16 * acc + d) else none

/-- `uN::from_str_radix(s, 16)`: rejects the empty string and a bare sign;
accepts one leading `'+'`; `'-'` is not a digit for unsigned types. -/
def fromStrRadix16 (w : Nat) (s : List Char) : Option Nat :=
  match s with
  | [] => none
  | ['+'] => none
  | '+' :: rest => hexAccGo w rest 0
  | _ => hexAccGo w s 0

/-- Segment loop of the generated `from_text` (`src/lib.rs` 304-326): trim,
reject an empty segment, parse a `0x` segment as hex retained directly into
the bits, otherwise look the name up; union every parsed segment. -/
def parseSegs (D : FlagSet) : List (List Char) → Nat → Except ParserError Nat
  | [], acc => .ok acc
  | seg :: rest, acc =>
    let f := trim seg
    if f = [] then .error .EmptyFlag
    else
      match f with
      | '0' :: 'x' :: hexDigits =>
        match fromStrRadix16 D.width hexDigits with
        | none => .error .InvalidHexFlag
        | some b => parseSegs D rest (D.set acc (D.from_bits_retain b))
      | _ =>
        match D.from_flag_name f with
        | none => .error .InvalidNamedFlag
        | some b => parseSegs D rest (D.set acc b)

/-- `from_text` (`src/lib.rs` 296-329): a blank input parses to the empty
value, otherwise every `'|'`-separated segment is parsed and unioned. -/
def from_text (D : FlagSet) (input : List Char) : Except ParserError Nat :=
  if trim input = [] then .ok D.empty else parseSegs D (splitPipe input) D.empty

/-- `from_text_truncate` (`src/lib.rs` 335-337): `from_text` then truncate. -/
def from_text_truncate (D : FlagSet) (input : List Char) :
    Except ParserError Nat :=
  (from_text D input).map D.truncated

/-- Does the segment start with `"0x"`? (`str::starts_with("0x")`.) -/
def startsWith0x : List Char → Bool
  | '0' :: 'x' :: _ => true
  | _ => false

/-- Segment loop of the generated `from_text_strict` (`src/lib.rs` 351-368):
like `parseSegs` but every `0x` segment is rejected outright. -/
def parseSegsStrict (D : FlagSet) :
    List (List Char) → Nat → Except ParserError Nat
  | [], acc => .ok acc
  | seg :: rest, acc =>
    let f := trim seg
    if f = [] then .error .EmptyFlag
    else if startsWith0x f then .error .InvalidHexFlag
    else
      match D.from_flag_name f with
      | none => .error .InvalidNamedFlag
      | some b => parseSegsStrict D rest (D.set acc b)

/-- `from_text_strict` (`src/lib.rs` 343-371). -/
def from_text_strict (D : FlagSet) (input : List Char) :
    Except ParserError Nat :=
  if trim input = [] then .ok D.empty
  else parseSegsStrict D (splitPipe input) D.empty

/-- The uppercase hex digit characters used by `{:X}`. -/
def hexCharUpper (n : Nat) : Char :=
  if n < 10 then Char.ofNat (48 + n) else Char.ofNat (55 + n)

/-- Most-significant-first hex digits of `n` (no leading zeros); fuel-driven
so that it reduces definitionally. -/
def hexDigitsGo : Nat → Nat → List Char
  | 0, _ => []
  | fuel + 1, n =>
    if n = 0 then [] else hexDigitsGo fuel (n / 16) ++ [hexCharUpper (n % 16)]

/-- `{:X}`: uppercase hex rendering of `n`, width not padded. -/
def upperHex (n : Nat) : List Char :=
  if n = 0 then ['0'] else hexDigitsGo n n

/-- `{:#X}`: `"0x"` followed by the uppercase hex digits. -/
def upperHexAlt (n : Nat) : List Char := '0' :: 'x' :: upperHex n

/-- Join with the `" | "` separator written between yields by `to_writer`. -/
def sepJoin : List (List Char) → List Char
  | [] => []
  | [x] => x
  | x :: xs => x ++ ' ' :: '|' :: ' ' :: sepJoin xs

/-- `to_writer` (`src/lib.rs` 764-799): the yielded names joined by `" | "`,
then — when the remainder is non-empty — a separator (unless no name was
written) and the remainder as `{:#X}`. -/
def to_writer (D : FlagSet) (v : Nat) : List Char :=
  let st := D.iter_names v
  let names := st.1.map (fun p => p.1.data)
  if st.2 = 0 then sepJoin names
  else if names = [] then upperHexAlt st.2
  else sepJoin names ++ ' ' :: '|' :: ' ' :: upperHexAlt st.2

/-- `to_writer_truncate` (`src/lib.rs` 803-808). -/
def to_writer_truncate (D : FlagSet) (v : Nat) : List Char :=
  to_writer D (D.truncated v)

/-- `to_writer_strict` (`src/lib.rs` 812-831): named flags only, no
remainder suffix. -/
def to_writer_strict (D : FlagSet) (v : Nat) : List Char :=
  sepJoin ((D.iter_names v).1.map (fun p => p.1.data))

-- Sanity checks of the embedding on the spec's overlap example.
private def Dovl : FlagSet := ⟨8, [("AB", 3), ("BC", 6)], 0⟩

example : (Dovl.iter_names 7).1 = [("AB", 3), ("BC", 6)] := by decide
example : (Dovl.iter_names 7).2 = 0 := by decide
example : Dovl.iter 11 = [3, 8] := by decide
example : Dovl.is_all 7 = true := by decide
example : Dovl.is_all 3 = false := by decide
example : Dovl.is_all 135 = true := by decide
example : Dovl.complement 1 = 6 := by decide
example : Dovl.not 1 = 254 := by decide

/-- The spec's 8-bit four-flag descriptor `{A=1, B=2, C=4, ABC=A|B|C}`. -/
def D8 : FlagSet := ⟨8, [("A", 1), ("B", 2), ("C", 4), ("ABC", 7)], 0⟩

-- Sanity checks of the text codec against the repository's parser tests.
example : to_writer D8 7 = "A | B | C".data := by decide
example : to_writer D8 0 = [] := by decide
example : to_writer D8 9 = "A | 0x8".data := by decide
example : to_writer D8 8 = "0x8".data := by decide
example : from_text D8 ("A | 0x8".data) = .ok 9 := by decide
example : from_text D8 (" A ".data) = .ok 1 := by decide
example : from_text D8 ("".data) = .ok 0 := by decide
example : from_text D8 ("A|B|C".data) = .ok 7 := by decide
example : from_text D8 ("A || B".data) = .error .EmptyFlag := by decide
example : from_text D8 ("A & B".data) = .error .InvalidNamedFlag := by decide
example : from_text D8 ("0xg".data) = .error .InvalidHexFlag := by decide
example : from_text D8 ("0x100".data) = .error .InvalidHexFlag := by decide
example : from_text_strict D8 ("0x1".data) = .error .InvalidHexFlag := by decide
example : from_text_strict D8 ("A|B".data) = .ok 3 := by decide
example : from_text D8 (to_writer D8 174) = .ok 174 := by decide

/-- Fold of `union` over a list of flags values, starting from `empty()` —
the consumer side of the outer iterator's round-trip law
(`FromIterator`/`Extend` in the generated code). -/
def FlagSet.flagsUnion (D : FlagSet) (l : List Nat) : Nat :=
  l.foldl D.or D.empty

/-! Supporting lemmas. -/

lemma foldl_or_testBit (l : List Nat) (a : Nat) (i : Nat) :
    (l.foldl (fun x y => x ||| y) a).testBit i
      = (a.testBit i || l.any (fun x => x.testBit i)) := by
  induction l generalizing a with
  | nil => simp
  | cons h t ih =>
    simp [List.foldl_cons, ih, Nat.testBit_lor, Bool.or_assoc]

lemma foldl_or_snd_testBit (l : List (String × Nat)) (a : Nat) (i : Nat) :
    (l.foldl (fun acc p => acc ||| p.2) a).testBit i
      = (a.testBit i || l.any (fun p => p.2.testBit i)) := by
  induction l generalizing a with
  | nil => simp
  | cons h t ih =>
    simp [List.foldl_cons, ih, Nat.testBit_lor, Bool.or_assoc]

lemma all_testBit (D : FlagSet) (i : Nat) :
    D.all.testBit i
      = (D.flags.any (fun p => p.2.testBit i) || D.extraValidBits.testBit i) := by
  unfold FlagSet.all
  rw [Nat.testBit_lor, foldl_or_snd_testBit]
  simp

lemma testBit_false_of_ge {x w i : Nat} (hx : x < 2 ^ w) (hi : w ≤ i) :
    x.testBit i = false :=
  Nat.testBit_eq_false_of_lt
    (Nat.lt_of_lt_of_le hx (Nat.pow_le_pow_right (by norm_num) hi))

lemma all_lt_two_pow (D : FlagSet) (h : D.WF) : D.all < 2 ^ D.width := by
  apply Nat.lt_pow_two_of_testBit
  intro i hi
  rw [all_testBit]
  have hex : D.extraValidBits.testBit i = false := testBit_false_of_ge h.2 hi
  have hfl : D.flags.any (fun p => p.2.testBit i) = false := by
    rw [List.any_eq_false]
    intro p hp
    simp [testBit_false_of_ge (h.1 p hp) hi]
  simp [hex, hfl]

lemma mem_flags_land_all (D : FlagSet) {p : String × Nat} (hp : p ∈ D.flags) :
    p.2 &&& D.all = p.2 := by
  apply Nat.eq_of_testBit_eq
  intro i
  rw [Nat.testBit_land, all_testBit]
  cases hb : p.2.testBit i with
  | false => simp
  | true =>
    have : D.flags.any (fun q => q.2.testBit i) = true :=
      List.any_eq_true.mpr ⟨p, hp, hb⟩
    simp [this]

lemma lor_eq_iff_land_eq (a v : Nat) : a ||| v = v ↔ v &&& a = a := by
  constructor <;> intro h <;> apply Nat.eq_of_testBit_eq <;> intro i <;>
    have hi := congrArg (fun x => x.testBit i) h <;>
    simp only [Nat.testBit_lor, Nat.testBit_land] at hi ⊢ <;>
    cases ha : a.testBit i <;> cases hv : v.testBit i <;> simp_all

lemma land_eq_iff_ldiff_zero (v a : Nat) : v &&& a = v ↔ Nat.ldiff v a = 0 := by
  constructor <;> intro h <;> apply Nat.eq_of_testBit_eq <;> intro i <;>
    have hi := congrArg (fun x => x.testBit i) h <;>
    simp only [Nat.testBit_land, Nat.testBit_ldiff, Nat.zero_testBit] at hi ⊢ <;>
    cases ha : a.testBit i <;> cases hv : v.testBit i <;> simp_all

namespace FlagSet

lemma iterNamesGo_zero (D : FlagSet) (s : Nat) (fs : List (String × Nat)) :
    iterNamesGo D s fs 0 = ([], 0) := by
  cases fs <;> simp [iterNamesGo]

lemma iterNamesGo_append (D : FlagSet) (s : Nat) (xs ys : List (String × Nat))
    (r : Nat) :
    iterNamesGo D s (xs ++ ys) r =
      ((iterNamesGo D s xs r).1 ++ (iterNamesGo D s ys (iterNamesGo D s xs r).2).1,
        (iterNamesGo D s ys (iterNamesGo D s xs r).2).2) := by
  induction xs generalizing r with
  | nil => simp [iterNamesGo]
  | cons hd tl ih =>
    obtain ⟨n, f⟩ := hd
    by_cases hr : r = 0
    · subst hr
      simp [iterNamesGo, iterNamesGo_zero]
    · by_cases hc : D.contains s f && D.intersects r f
      · simp [iterNamesGo, hr, hc, ih]
      · simp [iterNamesGo, hr, hc, ih]

lemma iterNamesGo_mem (D : FlagSet) (s : Nat) (fs : List (String × Nat))
    (r : Nat) {p : String × Nat} (hp : p ∈ (iterNamesGo D s fs r).1) :
    s &&& p.2 = p.2 ∧ p.2 ≠ 0 ∧ p ∈ fs := by
  induction fs generalizing r with
  | nil => simp [iterNamesGo] at hp
  | cons hd tl ih =>
    obtain ⟨n, f⟩ := hd
    by_cases hr : r = 0
    · subst hr; simp [iterNamesGo] at hp
    · by_cases hc : D.contains s f && D.intersects r f
      · rw [iterNamesGo, if_neg hr, if_pos hc] at hp
        have hcps := hc
        simp only [Bool.and_eq_true] at hcps
        rcases List.mem_cons.mp hp with heq | hmem
        · subst heq
          have hcf : s &&& f = f := by
            have h1 := hcps.1
            simp only [FlagSet.contains, beq_iff_eq] at h1
            exact h1
          have hif : r &&& f ≠ 0 := by
            have h2 := hcps.2
            simp only [FlagSet.intersects, FlagSet.empty, bne_iff_ne, ne_eq] at h2
            exact h2
          refine ⟨hcf, ?_, List.mem_cons_self _ _⟩
          intro hf0
          apply hif
          have hf : f = 0 := hf0
          rw [hf]
          simp
        · obtain ⟨ha, hb, hm⟩ := ih _ hmem
          exact ⟨ha, hb, List.mem_cons_of_mem _ hm⟩
      · rw [iterNamesGo, if_neg hr, if_neg hc] at hp
        obtain ⟨ha, hb, hm⟩ := ih _ hp
        exact ⟨ha, hb, List.mem_cons_of_mem _ hm⟩

lemma iterNamesGo_rem_subset (D : FlagSet) (s : Nat) (fs : List (String × Nat))
    (r i : Nat) (h : ((iterNamesGo D s fs r).2).testBit i = true) :
    r.testBit i = true := by
  induction fs generalizing r with
  | nil => simpa [iterNamesGo] using h
  | cons hd tl ih =>
    obtain ⟨n, f⟩ := hd
    by_cases hr : r = 0
    · subst hr; simp [iterNamesGo] at h
    · by_cases hc : D.contains s f && D.intersects r f
      · rw [iterNamesGo, if_neg hr, if_pos hc] at h
        have := ih _ h
        simp only [FlagSet.unset, FlagSet.difference, FlagSet.and, FlagSet.not,
          Nat.testBit_land, Bool.and_eq_true] at this
        exact this.1
      · rw [iterNamesGo, if_neg hr, if_neg hc] at h
        exact ih _ h

lemma land_lt_two_pow {r w : Nat} (hr : r < 2 ^ w) (x : Nat) :
    r &&& x < 2 ^ w := by
  apply Nat.lt_pow_two_of_testBit
  intro i hi
  rw [Nat.testBit_land, testBit_false_of_ge hr hi]
  rfl

lemma iterNamesGo_cover (D : FlagSet) (s : Nat) (fs : List (String × Nat))
    (r i : Nat) (hrw : r < 2 ^ D.width) (hbit : r.testBit i = true) :
    ((iterNamesGo D s fs r).2).testBit i = true ∨
      ∃ p ∈ (iterNamesGo D s fs r).1, p.2.testBit i = true := by
  induction fs generalizing r with
  | nil => left; simpa [iterNamesGo] using hbit
  | cons hd tl ih =>
    obtain ⟨n, f⟩ := hd
    by_cases hr : r = 0
    · subst hr; simp at hbit
    · by_cases hc : D.contains s f && D.intersects r f
      · rw [iterNamesGo, if_neg hr, if_pos hc]
        cases hf : f.testBit i with
        | true =>
          right
          exact ⟨(n, f), List.mem_cons_self _ _, hf⟩
        | false =>
          have hiw : i < D.width := by
            by_contra hge
            rw [testBit_false_of_ge hrw (Nat.le_of_not_lt hge)] at hbit
            exact Bool.false_ne_true hbit
          have hbit' : (D.unset r f).testBit i = true := by
            simp only [FlagSet.unset, FlagSet.difference, FlagSet.and,
              FlagSet.not, FlagSet.mask, Nat.testBit_land, Nat.testBit_xor,
              Nat.testBit_two_pow_sub_one]
            simp [hbit, hf, hiw]
          have hrw' : D.unset r f < 2 ^ D.width := land_lt_two_pow hrw _
          rcases ih (D.unset r f) hrw' hbit' with hl | ⟨p, hp, hpb⟩
          · left; exact hl
          · right; exact ⟨p, List.mem_cons_of_mem _ hp, hpb⟩
      · rw [iterNamesGo, if_neg hr, if_neg hc]
        exact ih r hrw hbit

end FlagSet

/-! The claims. -/

/-- C1: for every flags value `v` of the `w`-bit primitive, folding `union`
over the sequence yielded by the outer decomposition iterator `Iter`,
starting from the empty value, reproduces `v.bits()` exactly — the named
flags first, plus the one final non-empty `remaining()` value — regardless
of unknown or unmatched bits. -/
theorem iter_fold_union_roundtrip (D : FlagSet) (v : Nat)
    (hv : v < 2 ^ D.width) :
    D.flagsUnion (D.iter v) = v := by
  apply Nat.eq_of_testBit_eq
  intro i
  show ((D.iter v).foldl (fun x y => x ||| y) 0).testBit i = v.testBit i
  rw [foldl_or_testBit]
  simp only [Nat.zero_testBit, Bool.false_or]
  unfold FlagSet.iter
  rw [List.any_append]
  cases hvb : v.testBit i with
  | true =>
    rcases FlagSet.iterNamesGo_cover D v D.flags v i hv hvb with hrem | ⟨p, hp, hpb⟩
    · have hrem' : ((D.iter_names v).2).testBit i = true := hrem
      have hne : (D.iter_names v).2 ≠ 0 := by
        intro h0
        rw [h0] at hrem'
        simp at hrem'
      rw [if_neg hne]
      have htail : ([(D.iter_names v).2].any (fun x => x.testBit i)) = true := by
        simp [hrem']
      rw [htail, Bool.or_true]
    · have hhead : ((D.iter_names v).1.map (·.2)).any (fun x => x.testBit i) = true :=
        List.any_eq_true.mpr ⟨p.2, List.mem_map_of_mem _ hp, hpb⟩
      rw [hhead, Bool.true_or]
  | false =>
    have h1 : ((D.iter_names v).1.map (·.2)).any (fun x => x.testBit i) = false := by
      rw [List.any_eq_false]
      intro x hx
      rcases List.mem_map.mp hx with ⟨p, hp, rfl⟩
      intro hxb
      have hsub := (FlagSet.iterNamesGo_mem D v D.flags v hp).1
      have hland : (v &&& p.2).testBit i = true := by
        rw [hsub]
        exact hxb
      rw [Nat.testBit_land, hvb] at hland
      simp at hland
    have h2 : ((if (D.iter_names v).2 = 0 then ([] : List Nat)
        else [(D.iter_names v).2]).any (fun x => x.testBit i)) = false := by
      by_cases h0 : (D.iter_names v).2 = 0
      · rw [if_pos h0]
        rfl
      · rw [if_neg h0]
        simp only [List.any_cons, List.any_nil, Bool.or_false]
        cases hb : ((D.iter_names v).2).testBit i with
        | false => rfl
        | true =>
          have hvb' := FlagSet.iterNamesGo_rem_subset D v D.flags v i hb
          rw [hvb] at hvb'
          exact absurd hvb' (by simp)
    rw [h1, h2]
    rfl

/-- Witness for C1: the round-trip law evaluated on the concrete four-flag
descriptor at `v = 174` (which carries the unknown bits `0x88`). -/
theorem iter_fold_union_roundtrip_witness :
    (174 : Nat) < 2 ^ D8.width ∧ D8.flagsUnion (D8.iter 174) = 174 :=
  ⟨by decide, iter_fold_union_roundtrip D8 174 (by decide)⟩

/-- C2: `is_all(v)` holds exactly when every bit of `all()` is also set in
`v` — `v` is a superset of the known bits, not necessarily equal to them, so
a `v` that also carries unknown bits still satisfies `is_all`. -/
theorem is_all_superset_iff (D : FlagSet) (v : Nat) :
    D.is_all v = true ↔ D.contains v D.all = true := by
  unfold FlagSet.is_all FlagSet.contains
  simp only [beq_iff_eq]
  exact lor_eq_iff_land_eq D.all v

/-- Witness for C2: on the four-flag descriptor, `v = 255` carries the
unknown bits `0xF8` on top of `all() = 7` and still satisfies `is_all`. -/
theorem is_all_superset_iff_witness : D8.is_all 255 = true :=
  (is_all_superset_iff D8 255).mpr (by decide)

set_option maxRecDepth 10000 in
/-- C3: on the spec's 8-bit descriptor `{A=1, B=2, C=4, ABC=A|B|C}`,
parsing the retain-mode formatted text back yields exactly the source value
for every raw value `a` in `0..=255`. -/
theorem text_roundtrip_retain_exhaustive :
    ∀ a : Fin 256, from_text D8 (to_writer D8 a.val) = .ok a.val := by
  decide

/-- One unfolding step of `iterNamesGo` on a non-empty table. -/
lemma iterNamesGo_cons (D : FlagSet) (s : Nat) (n : String) (f : Nat)
    (rest : List (String × Nat)) (r : Nat) :
    FlagSet.iterNamesGo D s ((n, f) :: rest) r =
      if r = 0 then ([], r)
      else if D.contains s f && D.intersects r f then
        ((n, f) :: (FlagSet.iterNamesGo D s rest (D.unset r f)).1,
          (FlagSet.iterNamesGo D s rest (D.unset r f)).2)
      else FlagSet.iterNamesGo D s rest r := rfl

/-- C4: with descriptor `{AB=0b011, BC=0b110}` and source `0b111` the
decomposition yields `AB` then `BC`, each with its full declared pattern,
and `remaining()` ends empty; in general, a later flag is yielded exactly
at the point where the original source fully contains it and at least one
of its bits is still unattributed. -/
theorem overlap_decomposition :
    ((Dovl.iter_names 7).1 = [("AB", 3), ("BC", 6)] ∧ (Dovl.iter_names 7).2 = 0) ∧
    (∀ (D : FlagSet) (source : Nat) (xs ys : List (String × Nat))
      (n : String) (f : Nat),
      D.contains source f = true →
      D.intersects (FlagSet.iterNamesGo D source xs source).2 f = true →
      (FlagSet.iterNamesGo D source (xs ++ (n, f) :: ys) source).1 =
        (FlagSet.iterNamesGo D source xs source).1 ++
          (n, f) :: (FlagSet.iterNamesGo D source ys
            (D.unset (FlagSet.iterNamesGo D source xs source).2 f)).1) := by
  refine ⟨⟨by decide, by decide⟩, ?_⟩
  intro D source xs ys n f hcont hint
  rw [FlagSet.iterNamesGo_append]
  have hr0 : (FlagSet.iterNamesGo D source xs source).2 ≠ 0 := by
    intro h0
    rw [h0] at hint
    simp [FlagSet.intersects, FlagSet.empty] at hint
  rw [iterNamesGo_cons, if_neg hr0, if_pos (by rw [hcont, hint]; rfl)]

/-- Witness for C4: the general yield condition applied on the overlap
descriptor after `AB` has consumed its bits. -/
theorem overlap_decomposition_witness :
    (FlagSet.iterNamesGo Dovl 7 ([("AB", 3)] ++ [("BC", 6)]) 7).1 =
      (FlagSet.iterNamesGo Dovl 7 [("AB", 3)] 7).1 ++
        ("BC", 6) :: (FlagSet.iterNamesGo Dovl 7 []
          (Dovl.unset (FlagSet.iterNamesGo Dovl 7 [("AB", 3)] 7).2 6)).1 :=
  overlap_decomposition.2 Dovl 7 [("AB", 3)] [] "BC" 6 (by decide) (by decide)

/-- A descriptor with a zero-bit flag definition `Z`. -/
def Dz : FlagSet := ⟨8, [("Z", 0), ("A", 1)], 0⟩

/-- C5: a zero-bit flag is contained in every value, intersects no value,
is never yielded by the decomposition iterator, and is still resolvable by
name through `from_flag_name`. -/
theorem zero_bit_flag_props :
    (∀ (D : FlagSet) (v : Nat),
      D.contains v 0 = true ∧ D.intersects v 0 = false) ∧
    (∀ (D : FlagSet) (v : Nat) (p : String × Nat),
      p ∈ (D.iter_names v).1 → p.2 ≠ 0) ∧
    Dz.from_flag_name ("Z".data) = some 0 := by
  refine ⟨?_, ?_, rfl⟩
  · intro D v
    refine ⟨by simp [FlagSet.contains], by simp [FlagSet.intersects, FlagSet.empty]⟩
  · intro D v p hp
    exact (FlagSet.iterNamesGo_mem D v D.flags v hp).2.1

/-- Witness for C5: the yield `("AB", 3)` of the overlap decomposition has
non-zero bits. -/
theorem zero_bit_flag_props_witness :
    (("AB", 3) : String × Nat) ∈ (Dovl.iter_names 7).1 ∧ (3 : Nat) ≠ 0 :=
  ⟨by decide, zero_bit_flag_props.2.1 Dovl 7 ("AB", 3) (by decide)⟩

/-- C6: `not` is the plain width-wide bitwise NOT with no truncation,
`complement` is `not` followed by `truncated`, `difference` is the
untruncated and-not (true set difference on the stored bits), and `not`
agrees with `complement` exactly when its result has no unknown bits. -/
theorem not_complement_difference_props (D : FlagSet) (v o : Nat)
    (hv : v < 2 ^ D.width) :
    (∀ i, i < D.width → (D.not v).testBit i = !(v.testBit i)) ∧
    D.complement v = D.truncated (D.not v) ∧
    D.difference v o = Nat.ldiff v o ∧
    (D.not v = D.complement v ↔ D.contains_unknown_bits (D.not v) = false) := by
  refine ⟨?_, rfl, ?_, ?_⟩
  · intro i hi
    unfold FlagSet.not FlagSet.mask
    rw [Nat.testBit_xor, Nat.testBit_two_pow_sub_one]
    simp [hi]
  · apply Nat.eq_of_testBit_eq
    intro i
    unfold FlagSet.difference FlagSet.and FlagSet.not FlagSet.mask
    rw [Nat.testBit_land, Nat.testBit_xor, Nat.testBit_two_pow_sub_one,
      Nat.testBit_ldiff]
    by_cases hi : i < D.width
    · simp [hi]
    · have hvi : v.testBit i = false := testBit_false_of_ge hv (Nat.le_of_not_lt hi)
      simp [hvi]
  · show D.not v = D.truncated (D.not v) ↔ D.contains_unknown_bits (D.not v) = false
    unfold FlagSet.truncated FlagSet.contains_unknown_bits
    rw [bne_eq_false_iff_eq, Nat.land_comm]
    exact eq_comm

/-- Witness for C6: `difference` on the four-flag descriptor at `v = 13`,
`o = 11` is the untruncated and-not. -/
theorem not_complement_difference_props_witness :
    D8.difference 13 11 = Nat.ldiff 13 11 :=
  (not_complement_difference_props D8 13 11 (by decide)).2.2.1

/-- C9: `from_bits` accepts exactly the raw values with no bits outside
`all()`, returning them untruncated; `from_bits_truncate` masks with
`all()`; `from_bits_retain` is the identity on the raw bits. -/
theorem from_bits_family_spec (D : FlagSet) (raw : Nat) :
    D.from_bits raw = (if Nat.ldiff raw D.all = 0 then some raw else none) ∧
    D.from_bits_truncate raw = raw &&& D.all ∧
    D.from_bits_retain raw = raw := by
  refine ⟨?_, rfl, rfl⟩
  unfold FlagSet.from_bits FlagSet.from_bits_truncate
  by_cases h : Nat.ldiff raw D.all = 0
  · rw [if_pos h]
    have hr : raw &&& D.all = raw := (land_eq_iff_ldiff_zero raw D.all).mpr h
    simp [hr]
  · rw [if_neg h]
    have hr : raw &&& D.all ≠ raw :=
      fun hc => h ((land_eq_iff_ldiff_zero raw D.all).mp hc)
    simp [hr]

/-- C10: the unary `!` operator computes `complement`, so its result never
contains unknown bits, and `!(!v)` is `truncated(v)` — hence differs from
`v` whenever `v` carries unknown bits. -/
theorem op_not_is_complement (D : FlagSet) (v : Nat) (hD : D.WF) :
    D.opNot v = D.truncated (D.not v) ∧
    D.contains_unknown_bits (D.opNot v) = false ∧
    D.opNot (D.opNot v) = D.truncated v ∧
    (D.contains_unknown_bits v = true → D.opNot (D.opNot v) ≠ v) := by
  have hall := all_lt_two_pow D hD
  have hdd : D.opNot (D.opNot v) = D.truncated v := by
    apply Nat.eq_of_testBit_eq
    intro i
    unfold FlagSet.opNot FlagSet.complement FlagSet.truncated FlagSet.not
      FlagSet.mask
    simp only [Nat.testBit_land, Nat.testBit_xor, Nat.testBit_two_pow_sub_one]
    by_cases hi : i < D.width
    · simp only [hi, decide_True]
      cases v.testBit i <;> cases D.all.testBit i <;> rfl
    · have hna : D.all.testBit i = false :=
        testBit_false_of_ge hall (Nat.le_of_not_lt hi)
      simp [hna]
  refine ⟨rfl, ?_, hdd, ?_⟩
  · unfold FlagSet.contains_unknown_bits FlagSet.opNot FlagSet.complement
      FlagSet.truncated
    rw [bne_eq_false_iff_eq]
    apply Nat.eq_of_testBit_eq
    intro i
    simp only [Nat.testBit_land]
    cases D.all.testBit i <;> cases (D.not v).testBit i <;> rfl
  · intro hcub heq
    rw [hdd] at heq
    unfold FlagSet.contains_unknown_bits at hcub
    rw [bne_iff_ne] at hcub
    apply hcub
    unfold FlagSet.truncated at heq
    rw [Nat.land_comm] at heq
    exact heq

/-- Witness for C10: on the four-flag descriptor, `v = 9` has the unknown
bit `0x8`, and `!(!v)` drops it. -/
theorem op_not_is_complement_witness :
    D8.contains_unknown_bits 9 = true ∧ D8.opNot (D8.opNot 9) ≠ 9 :=
  ⟨by decide, (op_not_is_complement D8 9 (by decide)).2.2.2 (by decide)⟩

/-- One unfolding step of `parseSegsStrict` on a non-empty segment list. -/
lemma parseSegsStrict_cons (D : FlagSet) (seg : List Char)
    (rest : List (List Char)) (acc : Nat) :
    parseSegsStrict D (seg :: rest) acc =
      (if trim seg = [] then .error .EmptyFlag
       else if startsWith0x (trim seg) then .error .InvalidHexFlag
       else
         match D.from_flag_name (trim seg) with
         | none => .error .InvalidNamedFlag
         | some b => parseSegsStrict D rest (D.set acc b)) := rfl

/-- C7: the parser's failure classification — blank input is the empty
value with no error, an empty trimmed segment is `EmptyFlag`, an unknown
name is `InvalidNamedFlag`, a bad or overflowing hex literal is
`InvalidHexFlag`, and the strict parser rejects every `0x` segment as
`InvalidHexFlag`, even one that would parse. -/
theorem parser_error_classification :
    (∀ s : List Char, trim s = [] → from_text D8 s = .ok 0) ∧
    (∀ (D : FlagSet) (seg : List Char) (rest : List (List Char)) (acc : Nat),
      startsWith0x (trim seg) = true →
      parseSegsStrict D (seg :: rest) acc = .error .InvalidHexFlag) ∧
    from_text D8 ("A || B".data) = .error .EmptyFlag ∧
    from_text D8 ("A & B".data) = .error .InvalidNamedFlag ∧
    from_text D8 ("0xg".data) = .error .InvalidHexFlag ∧
    from_text D8 ("0x100".data) = .error .InvalidHexFlag ∧
    from_text_strict D8 ("0x1".data) = .error .InvalidHexFlag := by
  refine ⟨?_, ?_, by decide, by decide, by decide, by decide, by decide⟩
  · intro s hs
    unfold from_text
    rw [if_pos hs]
    rfl
  · intro D seg rest acc h0x
    have hne : trim seg ≠ [] := by
      intro h
      rw [h] at h0x
      simp [startsWith0x] at h0x
    rw [parseSegsStrict_cons, if_neg hne, if_pos h0x]

/-- Witness for C7: a whitespace-only input parses to the empty value, and
the strict segment loop rejects a well-formed hex segment. -/
theorem parser_error_classification_witness :
    from_text D8 ("  \t ".data) = .ok 0 ∧
    parseSegsStrict D8 ["0xFF".data] 0 = .error .InvalidHexFlag :=
  ⟨parser_error_classification.1 _ (by decide),
    parser_error_classification.2.1 D8 ("0xFF".data) [] 0 (by decide)⟩

lemma parseSegsStrict_land_all (D : FlagSet) :
    ∀ (segs : List (List Char)) (acc v : Nat),
      acc &&& D.all = acc →
      parseSegsStrict D segs acc = .ok v → v &&& D.all = v := by
  intro segs
  induction segs with
  | nil =>
    intro acc v hacc hok
    have hav : acc = v := by
      simpa [parseSegsStrict] using hok
    rw [← hav]
    exact hacc
  | cons seg rest ih =>
    intro acc v hacc hok
    rw [parseSegsStrict_cons] at hok
    by_cases h1 : trim seg = []
    · rw [if_pos h1] at hok
      exact absurd hok (by simp)
    · rw [if_neg h1] at hok
      by_cases h2 : startsWith0x (trim seg) = true
      · rw [if_pos h2] at hok
        exact absurd hok (by simp)
      · rw [if_neg h2] at hok
        cases hname : D.from_flag_name (trim seg) with
        | none =>
          rw [hname] at hok
          exact absurd hok (by simp)
        | some b =>
          rw [hname] at hok
          refine ih _ v ?_ hok
          have hb : b &&& D.all = b := by
            unfold FlagSet.from_flag_name at hname
            rcases Option.map_eq_some'.mp hname with ⟨p, hfind, hpb⟩
            rw [← hpb]
            exact mem_flags_land_all D (List.mem_of_find?_eq_some hfind)
          show (acc ||| b) &&& D.all = acc ||| b
          apply Nat.eq_of_testBit_eq
          intro i
          rw [Nat.testBit_land, Nat.testBit_lor]
          have ha := congrArg (fun x => x.testBit i) hacc
          have hbb := congrArg (fun x => x.testBit i) hb
          simp only [Nat.testBit_land] at ha hbb
          cases hai : acc.testBit i <;> cases hbi : b.testBit i <;>
            cases hali : D.all.testBit i <;> simp_all

/-- C8: whenever the strict parser succeeds, the result carries no unknown
bits — its truncation is the identity — without any explicit truncation
step, because every contributing bit comes from a named flag, itself a
subset of `all()`. -/
theorem from_text_strict_no_unknown_bits (D : FlagSet) (s : List Char)
    (v : Nat) (h : from_text_strict D s = .ok v) :
    D.truncated v = v ∧ D.contains_unknown_bits v = false := by
  have hsub : v &&& D.all = v := by
    unfold from_text_strict at h
    by_cases hb : trim s = []
    · rw [if_pos hb] at h
      have h0 : (D.empty : Nat) = v := by
        simpa using h
      rw [← h0]
      simp [FlagSet.empty]
    · rw [if_neg hb] at h
      exact parseSegsStrict_land_all D _ _ v (by simp [FlagSet.empty]) h
  exact ⟨hsub, by
    unfold FlagSet.contains_unknown_bits
    rw [bne_eq_false_iff_eq, Nat.land_comm]
    exact hsub⟩

/-- Witness for C8: parsing `"A|B"` strictly yields `3`, which is within
the known bits of the four-flag descriptor. -/
theorem from_text_strict_no_unknown_bits_witness :
    D8.truncated 3 = 3 ∧ D8.contains_unknown_bits 3 = false :=
  from_text_strict_no_unknown_bits D8 ("A|B".data) 3 (by decide)
